import Mathlib

/-!
Verification of the neuroHarmonize harmonization pipeline
(`neuroHarmonize/harmonizationLearn.py`).

Numpy arrays are modelled by `Mat`: explicit row/column counts together with
a total entry function `ℕ → ℕ → ℚ`.  Entries outside the declared shape are
irrelevant to the source program; keeping the entry function total lets every
numpy operation be transcribed directly while the shape bookkeeping stays
explicit data (so shape claims are genuine theorems, not typing artifacts).
Floating-point arithmetic is modelled by exact rationals.  External numerical
routines that the source calls but does not define — `np.linalg.inv`,
`np.sqrt`, the `BSplines` basis, the `GLMGam` fitting routine, and the two
`neuroCombat` estimation steps whose outputs are consumed opaquely — are
abstract function parameters of the pipeline; the two `neuroCombat` routines
whose behavior the claims depend on (`make_design_matrix`,
`adjust_data_final`) are modelled from the spec, as marked on their
definitions.  Python strings are modelled as `List Char`.
-/

namespace NeuroHarmonize

/-- A numpy 2-D array: a declared shape plus a total entry function. -/
structure Mat where
  rows : ℕ
  cols : ℕ
  entry : ℕ → ℕ → ℚ

/-- `A.T` in numpy. -/
def Mat.transpose (A : Mat) : Mat :=
  ⟨A.cols, A.rows, fun i j => A.entry j i⟩

/-- `np.dot(A, B)`: matrix product, contracting over `A`'s columns. -/
def Mat.dot (A B : Mat) : Mat :=
  ⟨A.rows, B.cols, fun i j => ∑ k ∈ Finset.range A.cols, A.entry i k * B.entry k j⟩

/-- Elementwise subtraction `A - B` (operands have equal shape in the source). -/
def Mat.sub (A B : Mat) : Mat :=
  ⟨A.rows, A.cols, fun i j => A.entry i j - B.entry i j⟩

/-- Elementwise addition `A + B`. -/
def Mat.add (A B : Mat) : Mat :=
  ⟨A.rows, A.cols, fun i j => A.entry i j + B.entry i j⟩

/-- Elementwise division `A / B`. -/
def Mat.divE (A B : Mat) : Mat :=
  ⟨A.rows, A.cols, fun i j => A.entry i j / B.entry i j⟩

/-- Elementwise map (used for `np.sqrt` and `** 2`). -/
def Mat.map (A : Mat) (f : ℚ → ℚ) : Mat :=
  ⟨A.rows, A.cols, fun i j => f (A.entry i j)⟩

/-- `A ** 2`: elementwise square. -/
def Mat.sq (A : Mat) : Mat :=
  A.map (fun x => x ^ 2)

/-- `np.ones((r, c))`. -/
def Mat.ones (r c : ℕ) : Mat :=
  ⟨r, c, fun _ _ => 1⟩

/-- Division of an array by a scalar, `A / q`. -/
def Mat.scalarDiv (A : Mat) (q : ℚ) : Mat :=
  ⟨A.rows, A.cols, fun i j => A.entry i j / q⟩

/-- `A[:k, :]`: keep the first `k` rows. -/
def Mat.sliceRows (A : Mat) (k : ℕ) : Mat :=
  ⟨k, A.cols, A.entry⟩

/-- `np.dot(v, B)` for a 1-D vector `v` contracted against the rows of `B`. -/
def vecMatDot (v : ℕ → ℚ) (B : Mat) : ℕ → ℚ :=
  fun j => ∑ k ∈ Finset.range B.rows, v k * B.entry k j

/-- `v.reshape((len, 1))`: a 1-D vector viewed as a column matrix. -/
def colVec (v : ℕ → ℚ) (len : ℕ) : Mat :=
  ⟨len, 1, fun i _ => v i⟩

/-- The shape `(rows, cols)` of an array. -/
def matShape (A : Mat) : ℕ × ℕ :=
  (A.rows, A.cols)

/-!
### Covariate preparation (source lines 42–68)
-/

/-- The covariate table: column names, a row count, and cell values.  The value
in the SITE column is the (numerically encoded) site label of the sample. -/
structure Covars where
  colNames : List String
  nrows : ℕ
  val : ℕ → ℕ → ℚ

/-- `pandas.Index.get_loc`: position of the first column with the given name,
`none` when the name is absent (pandas raises `KeyError`). -/
def get_loc (name : String) : List String → Option ℕ
  | [] => none
  | c :: rest => if c = name then some 0 else (get_loc name rest).map (· + 1)

/-- `np.unique(l)`: the sorted list of distinct values. -/
def sortedDedup {α : Type} [LinearOrder α] [DecidableEq α] (l : List α) : List α :=
  List.insertionSort (· ≤ ·) l.dedup

/-- Line 59, `np.unique(sites, return_inverse=True)[-1]`: each site label replaced
by its index in the sorted list of distinct labels (contiguous 0-based codes). -/
def siteCodes (sites : List ℚ) : List ℕ :=
  sites.map (fun x => (sortedDedup sites).indexOf x)

/-- The per-sample batch code, as a total function on sample indices. -/
def pipelineCodes (sites : List ℚ) : ℕ → ℕ :=
  fun s => (siteCodes sites).getD s 0

/-- Line 61, `batch_levels = np.unique(covars[:, batch_col])` after re-encoding. -/
def pipelineBatchLevels (sites : List ℚ) : List ℕ :=
  sortedDedup (siteCodes sites)

/-- Modelled from the spec: `make_design_matrix` is imported from the
`neuroCombat` module, which is not part of this source tree.  Spec §4.1: the
batch column is expanded to `n_batch` one-hot indicator columns ordered by
ascending site code, followed by one column per numeric covariate in given
order; no intercept column. -/
def make_design_matrix (codes : ℕ → ℕ) (n_batch : ℕ) (covv : ℕ → ℕ → ℚ)
    (num_cols : List ℕ) (n_sample : ℕ) : Mat :=
  ⟨n_sample, n_batch + num_cols.length, fun s c =>
    if c < n_batch then (if codes s = c then 1 else 0)
    else covv s (num_cols.getD (c - n_batch) 0)⟩

/-!
### Smoothing preprocessor (source lines 72–94)
-/

/-- Lines 77–86: the GAM formula string, built by appending `x<b> + ` for every
batch level, `c<k> + ` for every non-smooth numeric covariate column, then
chopping the trailing two characters and appending `- 1`. -/
def buildFormula (batch_levels num_cols smooth_cols : List ℕ) : List Char :=
  let f0 : List Char := ['y', ' ', '~', ' ']
  let f1 := batch_levels.foldl
    (fun acc b => acc ++ (['x'] ++ (Nat.repr b).toList ++ [' ', '+', ' '])) f0
  let f2 := num_cols.foldl
    (fun acc c => if c ∈ smooth_cols then acc
      else acc ++ (['c'] ++ (Nat.repr c).toList ++ [' ', '+', ' '])) f1
  f2.dropLast.dropLast ++ ['-', ' ', '1']

/-- Spec formulation of the formula (spec §4.2): `y ~ ` followed by exactly one
term `x<b>` per batch level and one term `c<k>` per non-smooth numeric
covariate, joined by ` + `, ending in ` - 1` (no intercept, no smooth terms). -/
def formulaSpec (batch_levels num_cols smooth_cols : List ℕ) : List Char :=
  ['y', ' ', '~', ' '] ++
    List.intercalate [' ', '+', ' ']
      (batch_levels.map (fun b => ['x'] ++ (Nat.repr b).toList) ++
        (num_cols.filter (fun c => c ∉ smooth_cols)).map
          (fun c => ['c'] ++ (Nat.repr c).toList)) ++
    [' ', '-', ' ', '1']

/-- Lines 79–85: the columns of the `df_gam` table, in insertion order — one
column `design[:, b]` per batch level `b`, then one covariate column per
non-smooth numeric covariate. -/
def dfGamCols (design : Mat) (batch_levels num_cols smooth_cols : List ℕ)
    (covv : ℕ → ℕ → ℚ) : List (ℕ → ℚ) :=
  batch_levels.map (fun b => fun s => design.entry s b) ++
    (num_cols.filter (fun c => c ∉ smooth_cols)).map (fun c => fun s => covv s c)

/-- Line 89, `design_gam = np.concatenate((df_gam, bs.basis), axis=1)`: the
`df_gam` columns followed by the spline basis columns. -/
def smooth_designOf (n_sample : ℕ) (gamCols : List (ℕ → ℚ)) (basis : Mat) : Mat :=
  ⟨n_sample, gamCols.length + basis.cols, fun s c =>
    if h : c < gamCols.length then (gamCols.get ⟨c, h⟩) s
    else basis.entry s (c - gamCols.length)⟩

/-- Lines 47–55 and 90–94: the smoothing bookkeeping dictionary (only the
fields consumed downstream are kept). -/
structure SmoothModel where
  perform_smoothing : Bool
  smooth_cols : List ℕ
  formula : List Char
  smooth_design : Mat

/-!
### StandardizeAcrossFeatures (source lines 110–158)

`X` is features × samples (the caller transposes).  `minv` stands for
`np.linalg.inv`, `sqrtFn` for `np.sqrt`, and `gamFit i c` for coefficient `c`
of the penalty-optimized `GLMGam` refit on feature `i` (the provided external
fitting capability, spec §6).
-/

/-- Line 147: `B_hat = np.dot(np.dot(np.linalg.inv(np.dot(design.T, design)), design.T), X.T)`. -/
def B_hat_ols (minv : Mat → Mat) (design X : Mat) : Mat :=
  ((minv ((Mat.transpose design).dot design)).dot (Mat.transpose design)).dot (Mat.transpose X)

/-- Line 148: `grand_mean = np.dot((sample_per_batch / float(n_sample)).T, B_hat[:n_batch, :])`. -/
def grand_meanOf (samplePerBatch : ℕ → ℕ) (n_sample n_batch : ℕ) (B_hat : Mat) : ℕ → ℚ :=
  vecMatDot (fun b => (samplePerBatch b : ℚ) / (n_sample : ℚ)) (B_hat.sliceRows n_batch)

/-- Line 149:
`var_pooled = np.dot(((X - np.dot(design, B_hat).T) ** 2), np.ones((n_sample, 1)) / float(n_sample))`. -/
def var_pooledOf (X design B_hat : Mat) (n_sample : ℕ) : Mat :=
  (Mat.sq (X.sub (Mat.transpose (design.dot B_hat)))).dot
    (Mat.scalarDiv (Mat.ones n_sample 1) (n_sample : ℚ))

/-- Lines 152–153: `tmp = np.array(design.copy()); tmp[:, :n_batch] = 0`. -/
def zeroBatchCols (design : Mat) (n_batch : ℕ) : Mat :=
  ⟨design.rows, design.cols, fun s c => if c < n_batch then 0 else design.entry s c⟩

/-- Lines 151 and 154:
`stand_mean = np.dot(grand_mean.T.reshape((len(grand_mean), 1)), np.ones((1, n_sample)))`
followed by `stand_mean += np.dot(tmp, B_hat).T`. -/
def stand_meanOf (grand_mean : ℕ → ℚ) (nFeat n_sample : ℕ) (design B_hat : Mat)
    (n_batch : ℕ) : Mat :=
  Mat.add ((colVec grand_mean nFeat).dot (Mat.ones 1 n_sample))
    (Mat.transpose ((zeroBatchCols design n_batch).dot B_hat))

/-- Line 156:
`s_data = ((X - stand_mean) / np.dot(np.sqrt(var_pooled), np.ones((1, n_sample))))`. -/
def s_dataOf (X stand_mean var_pooled : Mat) (sqrtFn : ℚ → ℚ) (n_sample : ℕ) : Mat :=
  (X.sub stand_mean).divE ((var_pooled.map sqrtFn).dot (Mat.ones 1 n_sample))

/-- Lines 110–158 assembled: pick the design (the smoothing design when
smoothing is active), estimate `B_hat` (per-feature GAM refits when smoothing,
one OLS solve otherwise, line 136 gives the GAM `B_hat` shape
`design.cols × X.rows`), then the shared lines 148–156.
Returns `(s_data, stand_mean, var_pooled, B_hat, grand_mean)`. -/
def StandardizeAcrossFeatures (minv : Mat → Mat) (gamFit : ℕ → ℕ → ℚ) (sqrtFn : ℚ → ℚ)
    (X design0 : Mat) (n_batch n_sample : ℕ) (samplePerBatch : ℕ → ℕ)
    (sm : SmoothModel) : Mat × Mat × Mat × Mat × (ℕ → ℚ) :=
  let design := if sm.perform_smoothing then sm.smooth_design else design0
  let B_hat : Mat :=
    if sm.perform_smoothing then ⟨design.cols, X.rows, fun c i => gamFit i c⟩
    else B_hat_ols minv design X
  let grand_mean := grand_meanOf samplePerBatch n_sample n_batch B_hat
  let var_pooled := var_pooledOf X design B_hat n_sample
  let stand_mean := stand_meanOf grand_mean B_hat.cols n_sample design B_hat n_batch
  let s_data := s_dataOf X stand_mean var_pooled sqrtFn n_sample
  (s_data, stand_mean, var_pooled, B_hat, grand_mean)

/-!
### Specification-side formulations (spec §4.3)
-/

/-- Spec formulation of the OLS closed form: `B_hat = (design^T design)^(-1) design^T X^T`,
with `design^T X^T` formed first (the two groupings agree by associativity). -/
def B_hat_ols_spec (minv : Mat → Mat) (design X : Mat) : Mat :=
  (minv ((Mat.transpose design).dot design)).dot ((Mat.transpose design).dot (Mat.transpose X))

/-- Spec formulation of the grand mean: a weighted average of the first `n_batch`
coefficient rows of `B_hat`, weighted by each site's sample share. -/
def grand_mean_spec (samplePerBatch : ℕ → ℕ) (n_sample n_batch : ℕ) (B_hat : Mat) : ℕ → ℚ :=
  fun f => ∑ b ∈ Finset.range n_batch,
    ((samplePerBatch b : ℚ) / (n_sample : ℚ)) * B_hat.entry b f

/-- Spec formulation of the pooled variance: per feature, the mean of the squared
residuals of `X - design·B_hat` over the samples, dividing by `N` (not `N - 1`). -/
def var_pooled_spec (X design B_hat : Mat) (n_sample : ℕ) : ℕ → ℚ :=
  fun i => (∑ j ∈ Finset.range n_sample,
    (X.entry i j - (Mat.transpose (design.dot B_hat)).entry i j) ^ 2) / (n_sample : ℚ)

/-- Spec formulation of the standardization mean: grand mean broadcast across
samples plus the covariate-only part of `design · B_hat` (the first `n_batch`
batch-indicator columns zeroed). -/
def stand_mean_spec (grand_mean : ℕ → ℚ) (design B_hat : Mat) (n_batch : ℕ) : ℕ → ℕ → ℚ :=
  fun i j => grand_mean i +
    ∑ c ∈ Finset.Ico n_batch design.cols, design.entry j c * B_hat.entry c i

/-- Spec formulation of the standardized data: per feature-sample cell,
`(X - stand_mean) / sqrt(var_pooled)` with `sqrt(var_pooled)` broadcast per
feature across samples. -/
def s_data_spec (X stand_mean var_pooled : Mat) (sqrtFn : ℚ → ℚ) : ℕ → ℕ → ℚ :=
  fun i j => (X.entry i j - stand_mean.entry i j) / sqrtFn (var_pooled.entry i 0)

/-!
### Full pipeline (source lines 7–108)
-/

/-- Modelled from the spec: `adjust_data_final` is imported from the
`neuroCombat` module, which is not part of this source tree.  Spec §4.6: for
each site's samples, subtract that site's `gamma_star` (broadcast per feature),
divide by the square root of that site's `delta_star`, rescale by
`sqrt(var_pooled)`, and add back `stand_mean`; output shape matches `s_data`. -/
def adjust_data_final (s_data gamma_star delta_star stand_mean var_pooled : Mat)
    (codes : ℕ → ℕ) (sqrtFn : ℚ → ℚ) : Mat :=
  ⟨s_data.rows, s_data.cols, fun i j =>
    (s_data.entry i j - gamma_star.entry (codes j) i) / sqrtFn (delta_star.entry (codes j) i)
      * sqrtFn (var_pooled.entry i 0) + stand_mean.entry i j⟩

/-- Lines 103–105: the model bundle returned to the caller. -/
structure ModelBundle where
  design : Mat
  s_data : Mat
  stand_mean : Mat
  var_pooled : Mat
  B_hat : Mat
  grand_mean : ℕ → ℚ
  gamma_star : Mat
  delta_star : Mat
  n_batch : ℕ

/-- Lines 7–108: the learning entry point.  `data` is samples × features and is
transposed on entry (line 40); the harmonized result is transposed back before
returning (line 107).  `fitLS` and `findAdj` are the two opaque `neuroCombat`
estimation steps (`fit_LS_model_and_find_priors`, with result type `α`, and
`find_parametric_adjustments`, returning `(gamma_star, delta_star)`); `basis`
is the `BSplines` basis matrix.  A missing SITE column surfaces as the pandas
`KeyError` (line 42). -/
def harmonizationLearn {α : Type} (minv : Mat → Mat) (gamFit : ℕ → ℕ → ℚ)
    (sqrtFn : ℚ → ℚ) (basis : Mat) (fitLS : Mat → Mat → α)
    (findAdj : Mat → α → Mat × Mat) (data : Mat) (covars : Covars)
    (smooth_terms : List String) : Except String (ModelBundle × Mat) :=
  match get_loc "SITE" covars.colNames with
  | none => Except.error "KeyError: SITE"
  | some batch_col =>
    let X := data.transpose
    let num_cols := (List.range covars.colNames.length).filter
      (fun i => covars.colNames.getD i "" ≠ "SITE")
    let smooth_cols := (List.range covars.colNames.length).filter
      (fun i => covars.colNames.getD i "" ∈ smooth_terms)
    let sites := (List.range covars.nrows).map (fun s => covars.val s batch_col)
    let codes := pipelineCodes sites
    let batch_levels := pipelineBatchLevels sites
    let n_batch := batch_levels.length
    let n_sample := covars.nrows
    let samplePerBatch : ℕ → ℕ := fun b => (siteCodes sites).count b
    let design := make_design_matrix codes n_batch covars.val num_cols n_sample
    let sm : SmoothModel :=
      if smooth_terms.isEmpty then ⟨false, smooth_cols, [], design⟩
      else ⟨true, smooth_cols, buildFormula batch_levels num_cols smooth_cols,
        smooth_designOf n_sample
          (dfGamCols design batch_levels num_cols smooth_cols covars.val) basis⟩
    let std := StandardizeAcrossFeatures minv gamFit sqrtFn X design n_batch
      n_sample samplePerBatch sm
    let s_data := std.1
    let stand_mean := std.2.1
    let var_pooled := std.2.2.1
    let B_hat := std.2.2.2.1
    let grand_mean := std.2.2.2.2
    let ls := fitLS s_data design
    let adj := findAdj s_data ls
    let bayes := adjust_data_final s_data adj.1 adj.2 stand_mean var_pooled codes sqrtFn
    Except.ok (ModelBundle.mk design s_data stand_mean var_pooled B_hat grand_mean
      adj.1 adj.2 n_batch, bayes.transpose)

/-!
### Model exporter (source lines 160–182)

The filesystem is modelled as the list of existing directories plus the list
of written files (path and contents, the contents of type `α` standing for a
saved numpy array).  Raising an exception leaves the filesystem unchanged, so
the exporter returns the (possibly updated) filesystem together with an
optional error message.
-/

/-- A minimal filesystem state: existing directories and written files. -/
structure FS (α : Type) where
  dirs : List String
  files : List (String × α)

/-- Line 176: the model fields that are not saved. -/
def do_not_save : List String :=
  ["design", "s_data", "stand_mean", "n_batch"]

/-- Line 172: the error text raised for an existing folder. -/
def folderExistsMsg (fldr_name : String) : String :=
  "Model folder already exists: " ++ fldr_name ++ " Change name or delete to save."

/-- Lines 160–182: fail if the folder exists (before any write); otherwise
create the folder and write one `.npy` file per retained model field. -/
def saveHarmonizationModel {α : Type} (fs : FS α) (model : List (String × α))
    (fldr_name : String) : FS α × Option String :=
  if fldr_name ∈ fs.dirs then (fs, some (folderExistsMsg fldr_name))
  else
    ({ dirs := fs.dirs ++ [fldr_name],
       files := fs.files ++ (model.filter (fun kv => kv.1 ∉ do_not_save)).map
         (fun kv => (fldr_name ++ "/" ++ kv.1 ++ ".npy", kv.2)) }, none)

/-!
### Concrete instances used by the witnesses
-/

/-- A concrete 2 × 1 data matrix. -/
def exData : Mat :=
  ⟨2, 1, fun _ _ => 3⟩

/-- A concrete 2 × 2 design matrix. -/
def exDesign : Mat :=
  ⟨2, 2, fun i j => if i = j then 1 else 0⟩

/-- A covariate table with only a SITE column. -/
def exCovars : Covars :=
  ⟨["SITE"], 2, fun s _ => (s : ℚ)⟩

/-- A covariate table without a SITE column. -/
def exCovarsNoSite : Covars :=
  ⟨["AGE"], 2, fun _ _ => 0⟩

/-- A concrete saveable model dictionary. -/
def exModel : List (String × ℕ) :=
  [("B_hat", 1), ("design", 2)]

/-!
## Theorems

Shared helper lemmas first, then one theorem per claim.
-/

theorem Mat.eq_of (A B : Mat) (h1 : A.rows = B.rows) (h2 : A.cols = B.cols)
    (h3 : ∀ i j, A.entry i j = B.entry i j) : A = B := by
  cases A with
  | mk ra ca ea =>
    cases B with
    | mk rb cb eb =>
      simp only [Mat.rows, Mat.cols, Mat.entry] at h1 h2 h3
      subst h1
      subst h2
      have he : ea = eb := by
        funext i j
        exact h3 i j
      rw [he]

theorem Mat.dot_assoc (A B C : Mat) : (A.dot B).dot C = A.dot (B.dot C) := by
  apply Mat.eq_of
  · rfl
  · rfl
  · intro i j
    simp only [Mat.dot, Finset.sum_mul, Finset.mul_sum]
    rw [Finset.sum_comm]
    exact Finset.sum_congr rfl fun l _ => Finset.sum_congr rfl fun k _ => mul_assoc _ _ _

theorem range_filter_le_eq_Ico (nb cols : ℕ) :
    (Finset.range cols).filter (fun c => nb ≤ c) = Finset.Ico nb cols := by
  ext c
  simp only [Finset.mem_filter, Finset.mem_range, Finset.mem_Ico]
  omega

/-- Claim C2: with smoothing inactive, `StandardizeAcrossFeatures` computes the
coefficient matrix (its fourth result) by the ordinary-least-squares closed
form `B_hat = (design^T design)^(-1) design^T X^T` in a single solve covering
all features simultaneously, of shape `N_design_cols × N_features` (here `X`
is features × samples, so `X.rows` is the feature count). -/
theorem B_hat_ols_closed_form (minv : Mat → Mat) (gamFit : ℕ → ℕ → ℚ)
    (sqrtFn : ℚ → ℚ) (design X : Mat) (n_batch n_sample : ℕ)
    (samplePerBatch : ℕ → ℕ) (sm : SmoothModel)
    (hsm : sm.perform_smoothing = false)
    (hminv : ∀ M, (minv M).rows = M.rows ∧ (minv M).cols = M.cols) :
    (StandardizeAcrossFeatures minv gamFit sqrtFn X design n_batch n_sample
        samplePerBatch sm).2.2.2.1 = B_hat_ols minv design X ∧
    B_hat_ols minv design X = B_hat_ols_spec minv design X ∧
    (B_hat_ols minv design X).rows = design.cols ∧
    (B_hat_ols minv design X).cols = X.rows := by
  refine ⟨?_, Mat.dot_assoc _ _ _, ?_, rfl⟩
  · simp [StandardizeAcrossFeatures, hsm]
  · exact (hminv ((Mat.transpose design).dot design)).1

theorem B_hat_ols_closed_form_witness :
    (SmoothModel.mk false [] [] exDesign).perform_smoothing = false ∧
    (∀ M : Mat, (id M).rows = M.rows ∧ (id M).cols = M.cols) ∧
    ((StandardizeAcrossFeatures id (fun _ _ => 0) id exData exDesign 2 2 (fun _ => 1)
        (SmoothModel.mk false [] [] exDesign)).2.2.2.1 = B_hat_ols id exDesign exData ∧
      B_hat_ols id exDesign exData = B_hat_ols_spec id exDesign exData ∧
      (B_hat_ols id exDesign exData).rows = exDesign.cols ∧
      (B_hat_ols id exDesign exData).cols = exData.rows) :=
  ⟨rfl, fun _ => ⟨rfl, rfl⟩,
    B_hat_ols_closed_form id (fun _ _ => 0) id exDesign exData 2 2 (fun _ => 1)
      (SmoothModel.mk false [] [] exDesign) rfl (fun _ => ⟨rfl, rfl⟩)⟩

/-- Claim C3: `stand_mean` is the grand mean broadcast across all samples plus
the covariate-only part of `design · B_hat` (the first `n_batch` batch-indicator
columns zeroed), and `s_data = (X - stand_mean) / sqrt(var_pooled)` with
`sqrt(var_pooled)` broadcast per feature across samples. -/
theorem stand_mean_s_data_formulas (grand_mean : ℕ → ℚ) (design B_hat X : Mat)
    (n_batch nFeat n_sample : ℕ) (sqrtFn : ℚ → ℚ) :
    ∀ i j,
      (stand_meanOf grand_mean nFeat n_sample design B_hat n_batch).entry i j
        = stand_mean_spec grand_mean design B_hat n_batch i j ∧
      (s_dataOf X (stand_meanOf grand_mean nFeat n_sample design B_hat n_batch)
          (var_pooledOf X design B_hat n_sample) sqrtFn n_sample).entry i j
        = s_data_spec X (stand_meanOf grand_mean nFeat n_sample design B_hat n_batch)
            (var_pooledOf X design B_hat n_sample) sqrtFn i j := by
  have hsm : ∀ i j,
      (stand_meanOf grand_mean nFeat n_sample design B_hat n_batch).entry i j
        = stand_mean_spec grand_mean design B_hat n_batch i j := by
    intro i j
    simp only [stand_meanOf, stand_mean_spec, Mat.add, Mat.dot, Mat.transpose, colVec,
      Mat.ones, zeroBatchCols, Finset.sum_range_one, mul_one]
    congr 1
    rw [← range_filter_le_eq_Ico, Finset.sum_filter]
    refine Finset.sum_congr rfl fun c _ => ?_
    by_cases hc : c < n_batch
    · have : ¬ n_batch ≤ c := by omega
      simp [hc, this]
    · have : n_batch ≤ c := by omega
      simp [hc, this]
  intro i j
  refine ⟨hsm i j, ?_⟩
  simp only [s_dataOf, s_data_spec, Mat.divE, Mat.sub, Mat.dot, Mat.map, Mat.ones,
    var_pooledOf, Mat.sq, Mat.scalarDiv, Finset.sum_range_one, mul_one]

/-- Claim C4: `var_pooled` for each feature is the mean of the squared residuals
of `X - design·B_hat` over the `n_sample` samples, dividing by `N` (population
variance), not `N - 1`.  The hypothesis records that `X` holds `n_sample`
samples per feature, as in the source. -/
theorem var_pooled_population_variance (X design B_hat : Mat) (n_sample : ℕ)
    (h : X.cols = n_sample) :
    ∀ i, (var_pooledOf X design B_hat n_sample).entry i 0
      = var_pooled_spec X design B_hat n_sample i := by
  intro i
  simp only [var_pooledOf, var_pooled_spec, Mat.dot, Mat.sq, Mat.map, Mat.sub,
    Mat.scalarDiv, Mat.ones, Mat.transpose, h, Finset.sum_div]
  exact Finset.sum_congr rfl fun j _ => by rw [one_div, div_eq_mul_inv]

theorem var_pooled_population_variance_witness :
    exData.cols = 1 ∧
    (∀ i, (var_pooledOf exData exDesign exDesign 1).entry i 0
      = var_pooled_spec exData exDesign exDesign 1 i) :=
  ⟨rfl, var_pooled_population_variance exData exDesign exDesign 1 rfl⟩

/-- Claim C5: `grand_mean` is the weighted average over the first `n_batch`
coefficient rows of `B_hat` (the site-effect slice `B_hat[:n_batch, :]`), the
weight of each site being its sample count divided by the total sample count. -/
theorem grand_mean_weighted_average (samplePerBatch : ℕ → ℕ) (n_sample n_batch : ℕ)
    (B_hat : Mat) :
    ∀ f, grand_meanOf samplePerBatch n_sample n_batch B_hat f
      = grand_mean_spec samplePerBatch n_sample n_batch B_hat f := by
  intro f
  simp only [grand_meanOf, grand_mean_spec, vecMatDot, Mat.sliceRows]

theorem foldl_append_eq {α : Type} (g : α → List Char) (l : List α) :
    ∀ init : List Char,
      l.foldl (fun acc b => acc ++ g b) init = init ++ (l.map g).flatten := by
  induction l with
  | nil => intro init; simp
  | cons a t ih => intro init; simp [ih, List.append_assoc]

theorem foldl_append_filter_eq {α : Type} [DecidableEq α] (g : α → List Char)
    (sc : List α) (l : List α) :
    ∀ init : List Char,
      l.foldl (fun acc c => if c ∈ sc then acc else acc ++ g c) init
        = init ++ ((l.filter (fun c => c ∉ sc)).map g).flatten := by
  induction l with
  | nil => intro init; simp
  | cons a t ih =>
    intro init
    by_cases h : a ∈ sc
    · simp [h, ih]
    · simp [h, ih, List.append_assoc]

theorem flatten_map_append_sep (sep : List Char) :
    ∀ ts : List (List Char), ts ≠ [] →
      (ts.map (fun t => t ++ sep)).flatten = List.intercalate sep ts ++ sep := by
  intro ts
  induction ts with
  | nil => intro h; cases h rfl
  | cons t rest ih =>
    intro _
    cases rest with
    | nil => simp [List.intercalate]
    | cons t' rest' =>
      rw [List.map_cons, List.flatten_cons, ih (List.cons_ne_nil _ _)]
      simp only [List.intercalate, List.intersperse_cons_cons, List.flatten_cons]
      simp [List.append_assoc]

/-- Claim C6: with smoothing requested, the constructed formula string is
exactly `y ~ x<b0> + x<b1> + ... + c<k> + ... - 1`: one linear term `x<b>` per
batch level `b`, one linear term `c<k>` per numeric covariate column `k` that
is not a smooth column, no intercept, and no term for the smooth covariates.
At least one batch level exists whenever there is at least one sample. -/
theorem formula_structure (batch_levels num_cols smooth_cols : List ℕ)
    (h : batch_levels ≠ []) :
    buildFormula batch_levels num_cols smooth_cols
      = formulaSpec batch_levels num_cols smooth_cols := by
  simp only [buildFormula, formulaSpec]
  rw [foldl_append_eq, foldl_append_filter_eq]
  have hmapx : batch_levels.map (fun b => ['x'] ++ (Nat.repr b).toList ++ [' ', '+', ' '])
      = (batch_levels.map (fun b => ['x'] ++ (Nat.repr b).toList)).map
        (fun t => t ++ [' ', '+', ' ']) := by
    rw [List.map_map]
    rfl
  have hmapc : (num_cols.filter (fun c => c ∉ smooth_cols)).map
        (fun c => ['c'] ++ (Nat.repr c).toList ++ [' ', '+', ' '])
      = ((num_cols.filter (fun c => c ∉ smooth_cols)).map
          (fun c => ['c'] ++ (Nat.repr c).toList)).map
        (fun t => t ++ [' ', '+', ' ']) := by
    rw [List.map_map]
    rfl
  rw [hmapx, hmapc, List.append_assoc, ← List.flatten_append, ← List.map_append,
    flatten_map_append_sep _ _ (by
      intro hemp
      rcases List.append_eq_nil.mp hemp with ⟨h1, -⟩
      exact h (List.map_eq_nil_iff.mp h1))]
  have hsep : ∀ Q : List Char, Q ++ [' ', '+', ' '] = ((Q ++ [' ']) ++ ['+']) ++ [' '] := by
    intro Q
    simp
  rw [← List.append_assoc, hsep, List.dropLast_concat, List.dropLast_concat]
  simp [List.append_assoc]

theorem formula_structure_witness :
    ([0, 1] : List ℕ) ≠ [] ∧
    buildFormula [0, 1] [2] [] = formulaSpec [0, 1] [2] [] :=
  ⟨by decide, formula_structure [0, 1] [2] [] (by decide)⟩

/-- Claim C7: for every model and every target folder that already exists,
`saveHarmonizationModel` fails with an error naming the folder and performs no
filesystem write (the filesystem comes back unchanged); consequently a second
call with the folder name of a previous successful call fails and leaves the
files written by the first call untouched (the first call's filesystem, which
contains every written file, comes back unchanged). -/
theorem saveHarmonizationModel_no_overwrite {α : Type} (fs : FS α)
    (model model₂ : List (String × α)) (fldr : String) :
    (fldr ∈ fs.dirs →
      saveHarmonizationModel fs model fldr = (fs, some (folderExistsMsg fldr))) ∧
    (fldr ∉ fs.dirs →
      saveHarmonizationModel (saveHarmonizationModel fs model fldr).1 model₂ fldr
          = ((saveHarmonizationModel fs model fldr).1, some (folderExistsMsg fldr)) ∧
      ∀ kv ∈ model.filter (fun kv => kv.1 ∉ do_not_save),
        (fldr ++ "/" ++ kv.1 ++ ".npy", kv.2)
          ∈ (saveHarmonizationModel fs model fldr).1.files) := by
  constructor
  · intro h
    simp [saveHarmonizationModel, h]
  · intro h
    constructor
    · simp [saveHarmonizationModel, h]
    · intro kv hkv
      simp only [saveHarmonizationModel, if_neg h, List.mem_append]
      exact Or.inr (List.mem_map.mpr ⟨kv, hkv, rfl⟩)

theorem saveHarmonizationModel_no_overwrite_witness :
    ("mdl" ∉ (FS.mk ([] : List String) ([] : List (String × ℕ))).dirs) ∧
    (saveHarmonizationModel
        (saveHarmonizationModel (FS.mk [] []) exModel "mdl").1 exModel "mdl"
      = ((saveHarmonizationModel (FS.mk ([] : List String) ([] : List (String × ℕ)))
          exModel "mdl").1, some (folderExistsMsg "mdl")) ∧
      ∀ kv ∈ exModel.filter (fun kv => kv.1 ∉ do_not_save),
        ("mdl" ++ "/" ++ kv.1 ++ ".npy", kv.2)
          ∈ (saveHarmonizationModel (FS.mk [] []) exModel "mdl").1.files) :=
  ⟨by decide,
    (saveHarmonizationModel_no_overwrite (FS.mk [] []) exModel exModel "mdl").2 (by decide)⟩

theorem get_loc_eq_none {name : String} : ∀ {l : List String}, name ∉ l →
    get_loc name l = none := by
  intro l
  induction l with
  | nil => intro _; rfl
  | cons c rest ih =>
    intro h
    have hc : ¬ c = name := fun he => h (he ▸ List.mem_cons_self c rest)
    have hr : name ∉ rest := fun hm => h (List.mem_cons_of_mem c hm)
    simp [get_loc, hc, ih hr]

theorem get_loc_isSome_of_mem {name : String} : ∀ {l : List String}, name ∈ l →
    ∃ i, get_loc name l = some i := by
  intro l
  induction l with
  | nil => intro h; cases h
  | cons c rest ih =>
    intro h
    by_cases hc : c = name
    · exact ⟨0, by simp [get_loc, hc]⟩
    · have hm : name ∈ rest := by
        cases List.mem_cons.mp h with
        | inl he => exact absurd he.symm hc
        | inr hm => exact hm
      obtain ⟨i, hi⟩ := ih hm
      exact ⟨i + 1, by simp [get_loc, hc, hi]⟩

/-- Claim C8: for every covariate table without a column named SITE,
`harmonizationLearn` fails with the lookup error raised when locating the SITE
column for the design matrix, before any estimation step runs (the error is the
entire result; nothing else is computed). -/
theorem harmonizationLearn_missing_site {α : Type} (minv : Mat → Mat)
    (gamFit : ℕ → ℕ → ℚ) (sqrtFn : ℚ → ℚ) (basis : Mat) (fitLS : Mat → Mat → α)
    (findAdj : Mat → α → Mat × Mat) (data : Mat) (covars : Covars)
    (smooth_terms : List String) (h : "SITE" ∉ covars.colNames) :
    harmonizationLearn minv gamFit sqrtFn basis fitLS findAdj data covars smooth_terms
      = Except.error "KeyError: SITE" := by
  unfold harmonizationLearn
  rw [get_loc_eq_none h]

theorem harmonizationLearn_missing_site_witness :
    ("SITE" ∉ exCovarsNoSite.colNames) ∧
    harmonizationLearn (α := Unit) id (fun _ _ => 0) id (Mat.ones 0 0) (fun _ _ => ())
        (fun _ _ => (Mat.ones 0 0, Mat.ones 0 0)) exData exCovarsNoSite []
      = Except.error "KeyError: SITE" :=
  ⟨by decide, harmonizationLearn_missing_site _ _ _ _ _ _ _ _ _ (by decide)⟩

/-- Claim C9: `harmonizationLearn` is deterministic — two runs on the same
inputs (data, covariates, smooth terms, and the same provided numerical
routines) produce identical model bundles and harmonized matrices; the
embedding is a pure function of its inputs, with no hidden randomness. -/
theorem harmonizationLearn_deterministic {α : Type} (minv : Mat → Mat)
    (gamFit : ℕ → ℕ → ℚ) (sqrtFn : ℚ → ℚ) (basis : Mat) (fitLS : Mat → Mat → α)
    (findAdj : Mat → α → Mat × Mat) (data : Mat) (covars : Covars)
    (smooth_terms : List String) (r₁ r₂ : Except String (ModelBundle × Mat))
    (h₁ : harmonizationLearn minv gamFit sqrtFn basis fitLS findAdj data covars
        smooth_terms = r₁)
    (h₂ : harmonizationLearn minv gamFit sqrtFn basis fitLS findAdj data covars
        smooth_terms = r₂) :
    r₁ = r₂ :=
  h₁.symm.trans h₂

theorem harmonizationLearn_deterministic_witness :
    harmonizationLearn (α := Unit) id (fun _ _ => 0) id (Mat.ones 0 0) (fun _ _ => ())
        (fun _ _ => (Mat.ones 0 0, Mat.ones 0 0)) exData exCovars []
      = harmonizationLearn (α := Unit) id (fun _ _ => 0) id (Mat.ones 0 0) (fun _ _ => ())
        (fun _ _ => (Mat.ones 0 0, Mat.ones 0 0)) exData exCovars [] :=
  harmonizationLearn_deterministic id (fun _ _ => 0) id (Mat.ones 0 0) (fun _ _ => ())
    (fun _ _ => (Mat.ones 0 0, Mat.ones 0 0)) exData exCovars [] _ _ rfl rfl

/-- Claim C1: for every numeric input matrix (samples × features) and covariate
table with a SITE column, `harmonizationLearn` returns a harmonized matrix of
the same shape as the input: the input is transposed to features × samples
internally and the result is transposed back before returning. -/
theorem harmonizationLearn_preserves_shape {α : Type} (minv : Mat → Mat)
    (gamFit : ℕ → ℕ → ℚ) (sqrtFn : ℚ → ℚ) (basis : Mat) (fitLS : Mat → Mat → α)
    (findAdj : Mat → α → Mat × Mat) (data : Mat) (covars : Covars)
    (smooth_terms : List String) (h : "SITE" ∈ covars.colNames) :
    (harmonizationLearn minv gamFit sqrtFn basis fitLS findAdj data covars
        smooth_terms).map (fun r => matShape r.2)
      = Except.ok (data.rows, data.cols) := by
  obtain ⟨i, hi⟩ := get_loc_isSome_of_mem h
  unfold harmonizationLearn
  rw [hi]
  rfl

theorem harmonizationLearn_preserves_shape_witness :
    ("SITE" ∈ exCovars.colNames) ∧
    (harmonizationLearn (α := Unit) id (fun _ _ => 0) id (Mat.ones 0 0) (fun _ _ => ())
        (fun _ _ => (Mat.ones 0 0, Mat.ones 0 0)) exData exCovars []).map
        (fun r => matShape r.2)
      = Except.ok (exData.rows, exData.cols) :=
  ⟨by decide, harmonizationLearn_preserves_shape _ _ _ _ _ _ _ _ _ (by decide)⟩

theorem mem_sortedDedup {α : Type} [LinearOrder α] [DecidableEq α] {a : α}
    {l : List α} : a ∈ sortedDedup l ↔ a ∈ l := by
  unfold sortedDedup
  rw [(List.perm_insertionSort _ _).mem_iff, List.mem_dedup]

theorem sortedDedup_nodup {α : Type} [LinearOrder α] [DecidableEq α] (l : List α) :
    (sortedDedup l).Nodup := by
  unfold sortedDedup
  exact ((List.perm_insertionSort _ _).nodup_iff).mpr (List.nodup_dedup l)

theorem sortedDedup_sorted {α : Type} [LinearOrder α] [DecidableEq α] (l : List α) :
    (sortedDedup l).Sorted (· ≤ ·) :=
  List.sorted_insertionSort _ _

/-- The `np.unique` re-encoding of line 59 produces contiguous 0-based codes:
the distinct codes, sorted, are exactly `0, 1, ..., n_batch - 1` where
`n_batch` is the number of distinct site labels. -/
theorem sortedDedup_siteCodes (l : List ℚ) :
    sortedDedup (siteCodes l) = List.range (sortedDedup l).length := by
  apply List.eq_of_perm_of_sorted _ (sortedDedup_sorted _) (List.sorted_le_range _)
  rw [List.perm_ext_iff_of_nodup (sortedDedup_nodup _) (List.nodup_range _)]
  intro k
  rw [mem_sortedDedup, List.mem_range, siteCodes]
  constructor
  · intro hmem
    obtain ⟨x, hx, hxk⟩ := List.mem_map.mp hmem
    exact hxk ▸ List.indexOf_lt_length.mpr (mem_sortedDedup.mpr hx)
  · intro hk
    exact List.mem_map.mpr ⟨(sortedDedup l).get ⟨k, hk⟩,
      mem_sortedDedup.mp (List.get_mem _ _ _),
      by simpa using List.indexOf_getElem (sortedDedup_nodup l) k hk⟩

/-- Claim C10 (implicit invariant): when smoothing is active, the first
`n_batch` columns of the combined design matrix `smooth_design` are exactly the
one-hot site-indicator columns of the linear design matrix, in ascending
batch-level order — the `df_gam` table inserts the `x<b>` columns first,
indexing `design[:, b]` with the contiguous 0-based batch codes of
`np.unique`'s re-encoding — so the slices `B_hat[:n_batch, :]` and
`tmp[:, :n_batch] = 0` select precisely the site-effect coefficients and
site-indicator columns in both paths. -/
theorem smooth_design_site_columns (sites : List ℚ) (covv : ℕ → ℕ → ℚ)
    (num_cols smooth_cols : List ℕ) (basis : Mat) (n_sample : ℕ) (b s : ℕ)
    (hb : b < (pipelineBatchLevels sites).length) :
    (smooth_designOf n_sample
        (dfGamCols
          (make_design_matrix (pipelineCodes sites) (pipelineBatchLevels sites).length
            covv num_cols n_sample)
          (pipelineBatchLevels sites) num_cols smooth_cols covv)
        basis).entry s b
      = (make_design_matrix (pipelineCodes sites) (pipelineBatchLevels sites).length
          covv num_cols n_sample).entry s b
    ∧ (make_design_matrix (pipelineCodes sites) (pipelineBatchLevels sites).length
          covv num_cols n_sample).entry s b
      = (if pipelineCodes sites s = b then 1 else 0) := by
  constructor
  · have hlen : b < (dfGamCols
        (make_design_matrix (pipelineCodes sites) (pipelineBatchLevels sites).length
          covv num_cols n_sample)
        (pipelineBatchLevels sites) num_cols smooth_cols covv).length := by
      simp only [dfGamCols, List.length_append, List.length_map]
      omega
    have hbl : b < ((pipelineBatchLevels sites).map
        (fun b => fun t => (make_design_matrix (pipelineCodes sites)
          (pipelineBatchLevels sites).length covv num_cols n_sample).entry t b)).length := by
      simpa using hb
    simp only [smooth_designOf, Mat.entry, dif_pos hlen, List.get_eq_getElem]
    simp only [dfGamCols]
    rw [List.getElem_append_left hbl, List.getElem_map]
    have hrange : pipelineBatchLevels sites
        = List.range (sortedDedup sites).length := sortedDedup_siteCodes sites
    have hlevel : (pipelineBatchLevels sites)[b] = b := by
      have hb2 : b < (List.range (sortedDedup sites).length).length := by
        rw [← hrange]; exact hb
      rw [List.getElem_of_eq hrange hb, List.getElem_range]
    rw [hlevel]
  · simp only [make_design_matrix, Mat.entry, if_pos hb]

theorem smooth_design_site_columns_witness :
    (1 < (pipelineBatchLevels [(0 : ℚ), 1]).length) ∧
    ((smooth_designOf 2
        (dfGamCols
          (make_design_matrix (pipelineCodes [(0 : ℚ), 1])
            (pipelineBatchLevels [(0 : ℚ), 1]).length (fun _ _ => 0) [] 2)
          (pipelineBatchLevels [(0 : ℚ), 1]) [] [] (fun _ _ => 0))
        (Mat.ones 2 1)).entry 0 1
      = (make_design_matrix (pipelineCodes [(0 : ℚ), 1])
          (pipelineBatchLevels [(0 : ℚ), 1]).length (fun _ _ => 0) [] 2).entry 0 1
    ∧ (make_design_matrix (pipelineCodes [(0 : ℚ), 1])
          (pipelineBatchLevels [(0 : ℚ), 1]).length (fun _ _ => 0) [] 2).entry 0 1
      = (if pipelineCodes [(0 : ℚ), 1] 0 = 1 then 1 else 0)) :=
  ⟨by decide,
    smooth_design_site_columns [(0 : ℚ), 1] (fun _ _ => 0) [] [] (Mat.ones 2 1) 2 1 0
      (by decide)⟩

end NeuroHarmonize
